import Mathlib

/-!
# Memcached-UHM `assoc.c`: the key index and its growth control

A shallow embedding of `src/memcached/assoc.c`.

* 32-bit unsigned quantities (`ub4`, `unsigned int`, `uint32_t`) are natural
  numbers reduced modulo `2^32` wherever the C code can wrap.
* A bucket chain (`item *` linked through `h_next`) is the list of its items,
  head first; a bucket array (`item **`) is a list of chains.
* The module's file-scope variables are the fields of `AssocState`.
* Outcomes the module obtains from its surroundings (whether a `trylock`
  succeeded, whether an allocation succeeded) are explicit Boolean inputs.
-/

namespace Assoc

/-! ## Scalars -/

/-- Modulus of the 32-bit unsigned types `ub4`, `unsigned int` and `uint32_t`. -/
def UINT32_MOD : Nat := 4294967296

/-- The macro `hashsize(n)`, `((ub4)1 << (n))`: the shift is carried out in the
32-bit type `ub4`.  C defines it for `n ≤ 31` only; for larger `n` the embedding
keeps the low 32 bits of the mathematical shift (which are all zero). -/
def hashsize (n : Nat) : Nat := (1 <<< n) % UINT32_MOD

/-- The macro `hashmask(n)`, `(hashsize(n) - 1)`, a `ub4` subtraction. -/
def hashmask (n : Nat) : Nat := (hashsize n + UINT32_MOD - 1) % UINT32_MOD

/-- The `unsigned int` increment `x++`. -/
def uint_succ (x : Nat) : Nat := (x + 1) % UINT32_MOD

/-- The `unsigned int` expression `x - 1`. -/
def uint_pred (x : Nat) : Nat := (x + UINT32_MOD - 1) % UINT32_MOD

/-! ## Data model -/

/-- An `item` as far as the index is concerned: the key bytes `ITEM_key(it)`
(their number is `it->nkey`) and the rest of the record, abbreviated to a
number.  The `h_next` link is the item's position in its chain. -/
structure item where
  key : List Nat
  data : Nat
deriving DecidableEq, Repr

/-- A bucket array: `item **`, one chain per slot. -/
abbrev Table := List (List item)

/-- Modelled from the spec: the map behind `startMap`, `getFromMap`,
`insertIntoMap`, `removeFromMap` and `resizeMap`, whose definitions are not in
`assoc.c`.  Following the spec's data model it is a bucket array of chains. -/
structure Map where
  buckets : Table
deriving DecidableEq, Repr

/-- The file-scope variables of `assoc.c`, the three `stats_state` fields the
module writes, and the map the module delegates to.  `cond_signalled` records
that `pthread_cond_signal(&maintenance_cond)` has been called and the wake-up
it causes has not yet been taken by the maintenance thread. -/
structure AssocState where
  hashpower : Nat
  primary_hashtable : Table
  old_hashtable : Table
  expanding : Bool
  expand_bucket : Nat
  do_run_maintenance_thread : Bool
  cond_signalled : Bool
  map : Map
  hash_power_level : Nat
  hash_bytes : Nat
  hash_is_expanding : Bool
deriving DecidableEq, Repr

/-- The state given by the initialisers of the file-scope variables:
`hashpower = HASHPOWER_DEFAULT`, both table pointers `0`, `expanding = false`,
`expand_bucket = 0`, `do_run_maintenance_thread = 1`, and a fresh condition
variable.  `HASHPOWER_DEFAULT` comes from `memcached.h` and is a parameter. -/
def initial_state (HASHPOWER_DEFAULT : Nat) : AssocState :=
  { hashpower := HASHPOWER_DEFAULT
    primary_hashtable := []
    old_hashtable := []
    expanding := false
    expand_bucket := 0
    do_run_maintenance_thread := true
    cond_signalled := false
    map := { buckets := [] }
    hash_power_level := 0
    hash_bytes := 0
    hash_is_expanding := false }

/-! ## Growth trigger -/

/-- The condition of the `if` inside `assoc_start_expand`:
`curr_items > (hashsize(hashpower) * 3) / 2 && hashpower < HASHPOWER_MAX`.
`hashsize(hashpower) * 3` is an `unsigned int` product and wraps modulo `2^32`;
the comparison with the `uint64_t` count is exact.  `HASHPOWER_MAX` comes from
`memcached.h` and is a parameter. -/
def expand_condition (HASHPOWER_MAX curr_items hashpower : Nat) : Bool :=
  decide (curr_items > ((hashsize hashpower * 3) % UINT32_MOD) / 2) &&
    decide (hashpower < HASHPOWER_MAX)

/-- Whether a call of `assoc_start_expand` signals `maintenance_cond`:
only when `pthread_mutex_trylock` returned 0 and the condition holds. -/
def start_expand_signals (HASHPOWER_MAX : Nat) (trylock_ok : Bool)
    (curr_items hashpower : Nat) : Bool :=
  trylock_ok && expand_condition HASHPOWER_MAX curr_items hashpower

/-- The function `assoc_start_expand(curr_items)`. -/
def assoc_start_expand (HASHPOWER_MAX : Nat) (trylock_ok : Bool) (curr_items : Nat)
    (s : AssocState) : AssocState :=
  if start_expand_signals HASHPOWER_MAX trylock_ok curr_items s.hashpower then
    { s with cond_signalled := true }
  else s

/-! ## The delegated map -/

/-- Modelled from the spec: the bucket a key belongs to in a bucket array,
`hash & (length - 1)` (spec, data model).  The hash function is the module's
external `hash`, a parameter. -/
def bucket_of (hash : List Nat → Nat) (m : Map) (key : List Nat) : Nat :=
  (hash key % UINT32_MOD) &&& (m.buckets.length - 1)

/-- Modelled from the spec: `find(array, bucket_index, key)` of the chain
operations, "scans the chain, returns the first entry whose key matches"
(length and byte equality, which is equality of the byte lists). -/
def chain_find (key : List Nat) (chain : List item) : Option item :=
  chain.find? (fun e => decide (e.key = key))

/-- Modelled from the spec: `remove(array, bucket_index, key)` of the chain
operations, "scans and unlinks the first exact match". -/
def chain_remove (key : List Nat) (chain : List item) : List item :=
  chain.eraseP (fun e => decide (e.key = key))

/-- Modelled from the spec: `startMap(size)`, absent from `assoc.c`; the spec's
bucket array store allocates `size` head slots, all initially empty. -/
def startMap (size : Nat) : Map :=
  { buckets := List.replicate size [] }

/-- Modelled from the spec: `getFromMap(key)`, absent from `assoc.c`; the
spec's `find` on the bucket of the key. -/
def getFromMap (hash : List Nat → Nat) (m : Map) (key : List Nat) : Option item :=
  chain_find key (m.buckets.getD (bucket_of hash m key) [])

/-- Modelled from the spec: `insertIntoMap(key, it)`, absent from `assoc.c`;
the spec's `insert` prepends the entry to the chain of its bucket and does not
look for a duplicate. -/
def insertIntoMap (hash : List Nat → Nat) (m : Map) (key : List Nat) (it : item) : Map :=
  { buckets := m.buckets.set (bucket_of hash m key)
      (it :: m.buckets.getD (bucket_of hash m key) []) }

/-- Modelled from the spec: `removeFromMap(key)`, absent from `assoc.c`; the
spec's `remove` on the bucket of the key. -/
def removeFromMap (hash : List Nat → Nat) (m : Map) (key : List Nat) : Map :=
  { buckets := m.buckets.set (bucket_of hash m key)
      (chain_remove key (m.buckets.getD (bucket_of hash m key) [])) }

/-- Modelled from the spec: `resizeMap(size)`, absent from `assoc.c`.  When the
new bucket array is obtained every entry is placed into it at its bucket; when
it cannot be obtained the map is left as it was (spec, error handling). -/
def resizeMap (hash : List Nat → Nat) (alloc_ok : Bool) (size : Nat) (m : Map) : Map :=
  if alloc_ok then
    m.buckets.flatten.foldl (fun acc it => insertIntoMap hash acc it.key it) (startMap size)
  else m

/-! ## The module's operations -/

/-- The function `assoc_init(hashtable_init)`.  The `int` argument is converted
to `unsigned int` by the assignment; `hash_bytes` is the `size_t` product
`hashsize(hashpower) * sizeof(void *)`, which cannot wrap.  `SIZEOF_PTR` is
`sizeof(void *)`. -/
def assoc_init (SIZEOF_PTR : Nat) (hashtable_init : Int) (s : AssocState) : AssocState :=
  let hp := if hashtable_init ≠ 0 then (hashtable_init % 4294967296).toNat else s.hashpower
  { s with
    hashpower := hp
    map := startMap (hashsize hp)
    hash_power_level := hp
    hash_bytes := hashsize hp * SIZEOF_PTR }

/-- The function `assoc_find(key, nkey, hv)`: the result of `getFromMap(key)`;
`nkey` and `hv` are not used. -/
def assoc_find (hash : List Nat → Nat) (key : List Nat) (_nkey : Nat) (_hv : Nat)
    (s : AssocState) : Option item :=
  getFromMap hash s.map key

/-- The function `assoc_insert(it, hv)`: `insertIntoMap(ITEM_key(it), it)`; only
the effect on the map is kept, the `int` it returns is not. -/
def assoc_insert (hash : List Nat → Nat) (it : item) (_hv : Nat) (s : AssocState) :
    AssocState :=
  { s with map := insertIntoMap hash s.map it.key it }

/-- The function `assoc_delete(key, nkey, hv)`: `removeFromMap(key)`. -/
def assoc_delete (hash : List Nat → Nat) (key : List Nat) (_nkey : Nat) (_hv : Nat)
    (s : AssocState) : AssocState :=
  { s with map := removeFromMap hash s.map key }

/-- The function `assoc_expand()`: `hashpower++`, then
`resizeMap(hashsize(hashpower))`, whose outcome is not inspected. -/
def assoc_expand (hash : List Nat → Nat) (alloc_ok : Bool) (s : AssocState) : AssocState :=
  let hp := uint_succ s.hashpower
  { s with hashpower := hp, map := resizeMap hash alloc_ok (hashsize hp) s.map }

/-- The function `stop_assoc_maintenance_thread()` up to the join: clears the
run flag and signals the condition. -/
def stop_assoc_maintenance_thread (s : AssocState) : AssocState :=
  { s with do_run_maintenance_thread := false, cond_signalled := true }

/-! ## The maintenance thread -/

/-- The bucket computed in the migration loop,
`hash(ITEM_key(it), it->nkey) & hashmask(hashpower)`. -/
def new_bucket (hash : List Nat → Nat) (hashpower : Nat) (it : item) : Nat :=
  (hash it.key % UINT32_MOD) &&& hashmask hashpower

/-- The inner `for (it = old_hashtable[expand_bucket]; NULL != it; it = next)`
loop: each item of the chain, in chain order, is pushed on the front of its
bucket of `primary_hashtable`. -/
def relink (hash : List Nat → Nat) (hashpower : Nat) (primary : Table)
    (chain : List item) : Table :=
  chain.foldl
    (fun tbl it =>
      tbl.set (new_bucket hash hashpower it) (it :: tbl.getD (new_bucket hash hashpower it) []))
    primary

/-- The body of the migration loop when `item_trylock(expand_bucket)` succeeded:
relink the chain, clear the old bucket, advance `expand_bucket`, and when it
equals `hashsize(hashpower - 1)` clear `expanding` and update the statistics
(`hash_bytes -= hashsize(hashpower - 1) * sizeof(void *)`, a 64-bit unsigned
subtraction, and `hash_is_expanding = false`).  `free(old_hashtable)` releases
storage and leaves the variable as it is. -/
def migrate_bucket (hash : List Nat → Nat) (SIZEOF_PTR : Nat) (s : AssocState) : AssocState :=
  let primary := relink hash s.hashpower s.primary_hashtable
    (s.old_hashtable.getD s.expand_bucket [])
  let old := s.old_hashtable.set s.expand_bucket []
  let eb := uint_succ s.expand_bucket
  let done := decide (eb = hashsize (uint_pred s.hashpower))
  { s with
    primary_hashtable := primary
    old_hashtable := old
    expand_bucket := eb
    expanding := if done then false else s.expanding
    hash_bytes :=
      if done then
        (s.hash_bytes + 18446744073709551616
          - (hashsize (uint_pred s.hashpower) * SIZEOF_PTR) % 18446744073709551616)
          % 18446744073709551616
      else s.hash_bytes
    hash_is_expanding := if done then false else s.hash_is_expanding }

/-- One iteration of `for (ii = 0; ii < hash_bulk_move && expanding; ++ii)`:
nothing when `expanding` is false; otherwise the bucket is migrated when its
lock is obtained, and the thread only sleeps when it is not. -/
def migration_iteration (hash : List Nat → Nat) (SIZEOF_PTR : Nat) (lock_ok : Bool) (s : AssocState) :
    AssocState :=
  if s.expanding then
    if lock_ok then migrate_bucket hash SIZEOF_PTR s else s
  else s

/-- The `if (!expanding)` block of the maintenance loop from the return of
`pthread_cond_wait` on.  The code does not ask why the wait returned: a signal
that was pending is used up, and if `do_run_maintenance_thread` is still set
`assoc_expand` runs between the two `pause_threads` calls; `hashpower` is not
looked at.  While `expanding` is set the thread is not in this block. -/
def maintenance_wakeup (hash : List Nat → Nat) (alloc_ok : Bool) (s : AssocState) :
    AssocState :=
  if s.expanding then s
  else
    let s1 := { s with cond_signalled := false }
    if s1.do_run_maintenance_thread then assoc_expand hash alloc_ok s1 else s1

/-- What can happen to the module's state: calls of its public operations by
worker threads and the two kinds of step of the maintenance thread. -/
inductive Event where
  | start_expand (trylock_ok : Bool) (curr_items : Nat)
  | find (key : List Nat) (hv : Nat)
  | insert (it : item) (hv : Nat)
  | delete (key : List Nat) (hv : Nat)
  | migrate (lock_ok : Bool)
  | wakeup (alloc_ok : Bool)
  | stop
deriving DecidableEq, Repr

/-- The effect of one event on the state. -/
def step (hash : List Nat → Nat) (SIZEOF_PTR : Nat) (HASHPOWER_MAX : Nat) (s : AssocState) :
    Event → AssocState
  | .start_expand ok n => assoc_start_expand HASHPOWER_MAX ok n s
  | .find _ _ => s
  | .insert it hv => assoc_insert hash it hv s
  | .delete key hv => assoc_delete hash key key.length hv s
  | .migrate ok => migration_iteration hash SIZEOF_PTR ok s
  | .wakeup ok => maintenance_wakeup hash ok s
  | .stop => stop_assoc_maintenance_thread s

/-- The state after a sequence of events. -/
def run (hash : List Nat → Nat) (SIZEOF_PTR : Nat) (HASHPOWER_MAX : Nat) (s : AssocState)
    (events : List Event) : AssocState :=
  events.foldl (step hash SIZEOF_PTR HASHPOWER_MAX) s

/-- The calls of `assoc_insert` and `assoc_delete` a worker makes; the hash
value handed over is the hash of the key. -/
inductive Op where
  | insert (it : item)
  | delete (key : List Nat)
deriving DecidableEq, Repr

/-- The effect of one insert or delete call. -/
def apply_op (hash : List Nat → Nat) (s : AssocState) : Op → AssocState
  | .insert it => assoc_insert hash it (hash it.key % UINT32_MOD) s
  | .delete key => assoc_delete hash key key.length (hash key % UINT32_MOD) s

/-- The state after a sequence of insert and delete calls. -/
def run_ops (hash : List Nat → Nat) (s : AssocState) (ops : List Op) : AssocState :=
  ops.foldl (apply_op hash) s

/-- The keys handed to `assoc_insert` by a sequence of calls, in order. -/
def inserted_keys : List Op → List (List Nat)
  | [] => []
  | .insert it :: ops => it.key :: inserted_keys ops
  | .delete _ :: ops => inserted_keys ops

/-- The state after the given number of completed calls of `assoc_expand`, one
allocation outcome per call. -/
def expand_times (hash : List Nat → Nat) (s : AssocState) (outcomes : List Bool) :
    AssocState :=
  outcomes.foldl (fun t ok => assoc_expand hash ok t) s

/-- The expansion-cursor invariant: while `expanding` is set, `expand_bucket`
is below `hashsize(hashpower - 1)`. -/
def CursorInv (s : AssocState) : Prop :=
  s.expanding = true → s.expand_bucket < hashsize (uint_pred s.hashpower)

/-! ## Invariants and sample states used by the theorems -/

/-- A state in the middle of a migration, used to exercise the migration step:
`hashpower = 2`, an aging array of two buckets of which bucket 1 is next, and a
primary array of four buckets. -/
def migrating_example : AssocState :=
  { initial_state 2 with
    expanding := true
    expand_bucket := 1
    old_hashtable := [[], [{ key := [1], data := 10 }, { key := [3], data := 30 }]]
    primary_hashtable := [[{ key := [4], data := 40 }], [{ key := [5], data := 50 }], [], []] }

/-- A state whose migration is one bucket away from completion: `hashpower = 1`,
an aging array of one bucket, cursor at 0. -/
def last_bucket_example : AssocState :=
  { initial_state 1 with
    expanding := true
    expand_bucket := 0
    old_hashtable := [[{ key := [1], data := 10 }]]
    primary_hashtable := [[], []] }

/-- The shape the delegated map keeps: a power-of-two number of buckets, every
entry in the bucket of its key, and no key twice in a chain. -/
def MapWF (hash : List Nat → Nat) (m : Map) : Prop :=
  (∃ p, m.buckets.length = 2 ^ p) ∧
    (∀ i, ∀ e ∈ m.buckets.getD i [], bucket_of hash m e.key = i) ∧
    (∀ i, ((m.buckets.getD i []).map item.key).Nodup)

/-- Entry `e` was inserted under key `k` by the sequence of calls and `k` was
not deleted afterwards. -/
def Live (ops : List Op) (k : List Nat) (e : item) : Prop :=
  ∃ pre post, ops = pre ++ Op.insert e :: post ∧ e.key = k ∧ Op.delete k ∉ post

/-! # Theorems

## Arithmetic of the macros -/

theorem hashsize_eq (n : Nat) (h : n ≤ 31) : hashsize n = 2 ^ n := by
  unfold hashsize UINT32_MOD
  rw [Nat.one_shiftLeft]
  apply Nat.mod_eq_of_lt
  calc 2 ^ n ≤ 2 ^ 31 := Nat.pow_le_pow_right (by decide) h
    _ < 4294967296 := by norm_num

theorem hashsize_lt (n : Nat) : hashsize n < 4294967296 := by
  unfold hashsize UINT32_MOD
  exact Nat.mod_lt _ (by norm_num)

theorem hashmask_eq (n : Nat) (h : n ≤ 31) : hashmask n = 2 ^ n - 1 := by
  unfold hashmask
  rw [hashsize_eq n h]
  have h1 : 0 < 2 ^ n := Nat.pow_pos (by decide)
  have h2 : 2 ^ n ≤ 2 ^ 31 := Nat.pow_le_pow_right (by decide) h
  unfold UINT32_MOD
  have h3 : 2 ^ n + 4294967296 - 1 = (2 ^ n - 1) + 4294967296 := by omega
  rw [h3, Nat.add_mod_right]
  apply Nat.mod_eq_of_lt
  have h4 : (2:Nat) ^ 31 = 2147483648 := by norm_num
  omega

theorem and_hashmask (h n : Nat) (hn : n ≤ 31) : h &&& hashmask n = h % 2 ^ n := by
  rw [hashmask_eq n hn, Nat.and_pow_two_sub_one_eq_mod]

theorem uint_pred_eq (n : Nat) (h1 : 1 ≤ n) (h2 : n ≤ 4294967296) : uint_pred n = n - 1 := by
  unfold uint_pred UINT32_MOD
  have h3 : n + 4294967296 - 1 = (n - 1) + 4294967296 := by omega
  rw [h3, Nat.add_mod_right]
  exact Nat.mod_eq_of_lt (by omega)

theorem uint_succ_eq (n : Nat) (h : n < 4294967295) : uint_succ n = n + 1 := by
  unfold uint_succ UINT32_MOD
  exact Nat.mod_eq_of_lt (by omega)

/-! ## Growth trigger -/

/-- Up to `hashpower = 30` the 32-bit threshold of `assoc_start_expand` is the
exact one: with the lock obtained it signals exactly when
`curr_items > (2^hashpower * 3) / 2` and `hashpower < HASHPOWER_MAX`, and
without the lock it never signals. -/
theorem start_expand_signals_exact (HASHPOWER_MAX curr_items hashpower : Nat)
    (trylock_ok : Bool) (h : hashpower ≤ 30) :
    (start_expand_signals HASHPOWER_MAX trylock_ok curr_items hashpower = true ↔
      trylock_ok = true ∧ curr_items > (2 ^ hashpower * 3) / 2 ∧
        hashpower < HASHPOWER_MAX) := by
  have h1 : hashsize hashpower = 2 ^ hashpower := hashsize_eq hashpower (by omega)
  have h2 : 2 ^ hashpower ≤ 2 ^ 30 := Nat.pow_le_pow_right (by decide) h
  have h3 : (2:Nat) ^ 30 = 1073741824 := by norm_num
  have h4 : (2 ^ hashpower * 3) % UINT32_MOD = 2 ^ hashpower * 3 := by
    unfold UINT32_MOD
    exact Nat.mod_eq_of_lt (by omega)
  simp [start_expand_signals, expand_condition, h1, h4]

/-- The spec's scenario for the trigger: at `hashpower = 2` item counts 1 to 6
do not signal and item count 7 does (lock obtained, `HASHPOWER_MAX = 32`). -/
theorem start_expand_signals_scenario :
    (∀ n, 1 ≤ n → n ≤ 6 → start_expand_signals 32 true n 2 = false) ∧
      start_expand_signals 32 true 7 2 = true ∧
      (∀ n hp, start_expand_signals 32 false n hp = false) := by
  refine ⟨?_, by decide, ?_⟩
  · intro n h1 h6
    interval_cases n <;> decide
  · intro n hp
    simp [start_expand_signals]

/-- C1, at the input where the code leaves the claim: with `hashpower = 31`,
`HASHPOWER_MAX = 32` and the lock obtained, `assoc_start_expand(1073741825)`
signals the maintenance condition although `1073741825` is not greater than
the exact threshold `(2^31 * 3) / 2 = 3221225472`; the 32-bit product
`hashsize(31) * 3` wraps to `2^31`, so the code compares with `2^30`. -/
theorem start_expand_threshold_wraps_at_31 :
    start_expand_signals 32 true 1073741825 31 = true ∧
      ¬ (1073741825 > (2 ^ 31 * 3) / 2) ∧
      (hashsize 31 * 3) % UINT32_MOD / 2 = 1073741824 ∧
      (assoc_start_expand 32 true 1073741825
        { initial_state 31 with cond_signalled := false }).cond_signalled = true := by
  refine ⟨by decide, by norm_num, by decide, by decide⟩

/-! ## Growth of `hashpower` -/

theorem assoc_expand_hashpower (hash : List Nat → Nat) (ok : Bool) (s : AssocState) :
    (assoc_expand hash ok s).hashpower = uint_succ s.hashpower := rfl

theorem assoc_start_expand_hashpower (M : Nat) (ok : Bool) (n : Nat) (s : AssocState) :
    (assoc_start_expand M ok n s).hashpower = s.hashpower := by
  unfold assoc_start_expand
  split <;> rfl

theorem migration_iteration_hashpower (hash : List Nat → Nat) (SIZEOF_PTR : Nat) (ok : Bool) (s : AssocState) :
    (migration_iteration hash SIZEOF_PTR ok s).hashpower = s.hashpower := by
  unfold migration_iteration migrate_bucket
  split
  · split <;> rfl
  · rfl

theorem maintenance_wakeup_hashpower (hash : List Nat → Nat) (ok : Bool) (s : AssocState) :
    (maintenance_wakeup hash ok s).hashpower = s.hashpower ∨
      (maintenance_wakeup hash ok s).hashpower = uint_succ s.hashpower := by
  unfold maintenance_wakeup
  by_cases h1 : s.expanding = true
  · simp [h1]
  · by_cases h3 : s.do_run_maintenance_thread = true
    · right
      simp [h1, h3, assoc_expand]
    · left
      simp [h1, h3]

theorem step_hashpower (hash : List Nat → Nat) (SIZEOF_PTR : Nat) (M : Nat) (s : AssocState) (ev : Event) :
    (step hash SIZEOF_PTR M s ev).hashpower = s.hashpower ∨
      (step hash SIZEOF_PTR M s ev).hashpower = uint_succ s.hashpower := by
  cases ev with
  | start_expand ok n => exact Or.inl (assoc_start_expand_hashpower M ok n s)
  | find k hv => exact Or.inl rfl
  | insert it hv => exact Or.inl rfl
  | delete k hv => exact Or.inl rfl
  | migrate ok => exact Or.inl (migration_iteration_hashpower hash SIZEOF_PTR ok s)
  | wakeup ok => exact maintenance_wakeup_hashpower hash ok s
  | stop => exact Or.inl rfl

theorem expand_times_snoc (hash : List Nat → Nat) (s : AssocState) (l : List Bool)
    (ok : Bool) :
    expand_times hash s (l ++ [ok]) = assoc_expand hash ok (expand_times hash s l) := by
  simp [expand_times, List.foldl_append]

theorem expand_times_hashpower (hash : List Nat → Nat) (s : AssocState)
    (outcomes : List Bool) (h : s.hashpower + outcomes.length ≤ 4294967295) :
    (expand_times hash s outcomes).hashpower = s.hashpower + outcomes.length := by
  induction outcomes using List.reverseRecOn with
  | nil => simp [expand_times]
  | append_singleton l ok ih =>
    rw [expand_times_snoc, assoc_expand_hashpower]
    simp only [List.length_append, List.length_singleton] at h ⊢
    rw [ih (by omega), uint_succ_eq _ (by omega)]
    omega

/-- C2, where the claim fails: one call of `assoc_expand` from `hashpower = 31`
gives `hashpower = 32`, and the size handed to `resizeMap`,
`hashsize(hashpower)`, is a 32-bit value and so is not `2^32`; and from
`hashpower = 4294967295` the `unsigned int` increment wraps to `0`. -/
theorem hashsize_after_expand_not_pow_counterexample :
    (expand_times (fun _ => 0) (initial_state 31) [true]).hashpower = 31 + 1 ∧
      hashsize (expand_times (fun _ => 0) (initial_state 31) [true]).hashpower ≠ 2 ^ (31 + 1) ∧
      (assoc_expand (fun _ => 0) true (initial_state 4294967295)).hashpower
        < (initial_state 4294967295).hashpower := by
  refine ⟨by decide, by decide, by decide⟩

/-- C2, amended: in every state with `hashpower < 2^32 - 1`, no event of the
module (a call of `assoc_start_expand`, `assoc_find`, `assoc_insert`,
`assoc_delete`, a step of the maintenance loop, a stop request) decreases
`hashpower`, and a call of `assoc_expand` increases it by exactly 1; and for
every initial power `P` and every `N` with `P + N ≤ 31`, after `N` completed
calls of `assoc_expand` from `hashpower = P`, `hashpower` is `P + N` and
`hashsize(hashpower)`, the size passed to `resizeMap` by the last call, is
`2^(P+N)`. -/
theorem hashpower_monotone_and_doubling (hash : List Nat → Nat) (SIZEOF_PTR : Nat)
    (HASHPOWER_MAX : Nat) (s : AssocState) (ev : Event) (alloc_ok : Bool) (P N : Nat)
    (outcomes : List Bool) :
    (s.hashpower < 4294967295 →
        s.hashpower ≤ (step hash SIZEOF_PTR HASHPOWER_MAX s ev).hashpower) ∧
      (s.hashpower < 4294967295 →
        (assoc_expand hash alloc_ok s).hashpower = s.hashpower + 1) ∧
      (s.hashpower = P → outcomes.length = N → P + N ≤ 31 →
        (expand_times hash s outcomes).hashpower = P + N ∧
          hashsize (expand_times hash s outcomes).hashpower = 2 ^ (P + N)) := by
  refine ⟨?_, ?_, ?_⟩
  · intro hlt
    rcases step_hashpower hash SIZEOF_PTR HASHPOWER_MAX s ev with h | h
    · rw [h]
    · rw [h, uint_succ_eq _ hlt]
      omega
  · intro hlt
    rw [assoc_expand_hashpower, uint_succ_eq _ hlt]
  · intro hP hN hPN
    have h1 : (expand_times hash s outcomes).hashpower = P + N := by
      rw [expand_times_hashpower hash s outcomes (by omega), hP, hN]
    exact ⟨h1, by rw [h1, hashsize_eq _ hPN]⟩

theorem hashpower_monotone_and_doubling_witness :
    (initial_state 32).hashpower
        ≤ (step (fun k => k.length) 8 32 (initial_state 32) (Event.wakeup true)).hashpower ∧
      (step (fun k => k.length) 8 32 (initial_state 32) (Event.wakeup true)).hashpower = 33 ∧
      (assoc_expand (fun k => k.length) false (initial_state 32)).hashpower = 32 + 1 ∧
      (expand_times (fun k => k.length) (initial_state 2) [true, false, true]).hashpower
        = 2 + 3 ∧
      hashsize (expand_times (fun k => k.length) (initial_state 2)
        [true, false, true]).hashpower = 2 ^ (2 + 3) :=
  have h32 := hashpower_monotone_and_doubling (fun k => k.length) 8 32 (initial_state 32)
    (Event.wakeup true) false 32 0 []
  have h2 := hashpower_monotone_and_doubling (fun k => k.length) 8 32 (initial_state 2)
    (Event.wakeup true) true 2 3 [true, false, true]
  ⟨h32.1 (by decide), by decide, h32.2.1 (by decide), (h2.2.2 rfl rfl (by decide)).1,
    (h2.2.2 rfl rfl (by decide)).2⟩

/-! ## The table-size cap -/

/-- C5, where the claim fails: starting from `hashpower = 16`, a call of
`assoc_expand` whose `resizeMap` fails leaves `hashpower = 17`, not the value
before the attempt. -/
theorem assoc_expand_failure_changes_hashpower_counterexample :
    (assoc_expand (fun _ => 0) false (initial_state 16)).hashpower = 17 ∧
      (assoc_expand (fun _ => 0) false (initial_state 16)).hashpower
        ≠ (initial_state 16).hashpower := by
  refine ⟨by decide, by decide⟩

/-- C5, amended: `assoc_expand` increments `hashpower` before it calls
`resizeMap` and does not look at the outcome; so when `resizeMap` fails,
`expanding`, `expand_bucket` and both table variables are as before the
attempt, while `hashpower` is the `unsigned int` successor of its old value
(the same value as after a successful attempt). -/
theorem assoc_expand_failure_state (hash : List Nat → Nat) (s : AssocState) :
    (assoc_expand hash false s).expanding = s.expanding ∧
      (assoc_expand hash false s).expand_bucket = s.expand_bucket ∧
      (assoc_expand hash false s).primary_hashtable = s.primary_hashtable ∧
      (assoc_expand hash false s).old_hashtable = s.old_hashtable ∧
      (assoc_expand hash false s).hashpower = uint_succ s.hashpower ∧
      (assoc_expand hash false s).hashpower = (assoc_expand hash true s).hashpower :=
  ⟨rfl, rfl, rfl, rfl, rfl, rfl⟩

/-! ## Initialisation -/

theorem startMap_length (n : Nat) : (startMap n).buckets.length = n := by
  simp [startMap]

/-- C6, where the claim fails: `assoc_init(32)` sets `hashpower = 32`, and the
size it hands to `startMap` is the 32-bit value `hashsize(32)`, so the map is
not started with `2^32` slots; and `assoc_init(-1)` sets the unsigned
`hashpower` to `4294967295`, not to `-1`. -/
theorem assoc_init_32_counterexample :
    (assoc_init 8 32 (initial_state 16)).hashpower = 32 ∧
      (assoc_init 8 32 (initial_state 16)).map.buckets.length ≠ 2 ^ 32 ∧
      (assoc_init 8 (-1) (initial_state 16)).hashpower = 4294967295 ∧
      (((assoc_init 8 (-1) (initial_state 16)).hashpower : Nat) : Int) ≠ -1 := by
  refine ⟨by decide, ?_, by decide, by decide⟩
  have h : (assoc_init 8 32 (initial_state 16)).map.buckets.length = hashsize 32 := by
    simp [assoc_init, startMap_length]
  rw [h]
  exact Nat.ne_of_lt (hashsize_lt 32)

/-- C6, amended: for every `hashtable_init = p` with `1 ≤ p ≤ 31`,
`assoc_init(p)` sets `hashpower` to `p`, starts the map with exactly `2^p`
empty bucket slots, and reports `hash_power_level = p` and
`hash_bytes = 2^p * sizeof(void *)`; for `hashtable_init = 0` and
`HASHPOWER_DEFAULT ≤ 31`, `hashpower` keeps the value `HASHPOWER_DEFAULT` and
the map is started with `2^HASHPOWER_DEFAULT` slots. -/
theorem assoc_init_spec (SIZEOF_PTR p HASHPOWER_DEFAULT : Nat) (s : AssocState)
    (h1 : 1 ≤ p) (h31 : p ≤ 31) (hd : HASHPOWER_DEFAULT ≤ 31) :
    (assoc_init SIZEOF_PTR (p : Int) s).hashpower = p ∧
      (assoc_init SIZEOF_PTR (p : Int) s).map.buckets = List.replicate (2 ^ p) [] ∧
      (assoc_init SIZEOF_PTR (p : Int) s).map.buckets.length = 2 ^ p ∧
      (assoc_init SIZEOF_PTR (p : Int) s).hash_power_level = p ∧
      (assoc_init SIZEOF_PTR (p : Int) s).hash_bytes = 2 ^ p * SIZEOF_PTR ∧
      (assoc_init SIZEOF_PTR 0 (initial_state HASHPOWER_DEFAULT)).hashpower
        = HASHPOWER_DEFAULT ∧
      (assoc_init SIZEOF_PTR 0 (initial_state HASHPOWER_DEFAULT)).map.buckets.length
        = 2 ^ HASHPOWER_DEFAULT := by
  have hp0 : (p : Int) ≠ 0 := by omega
  have hconv : ((p : Int) % 4294967296).toNat = p := by omega
  have hs : hashsize p = 2 ^ p := hashsize_eq p h31
  have hsd : hashsize HASHPOWER_DEFAULT = 2 ^ HASHPOWER_DEFAULT := hashsize_eq _ hd
  refine ⟨?_, ?_, ?_, ?_, ?_, ?_, ?_⟩
  · simp [assoc_init, hp0, hconv]
  · simp [assoc_init, hp0, hconv, hs, startMap]
  · simp [assoc_init, hp0, hconv, hs, startMap]
  · simp [assoc_init, hp0, hconv]
  · simp [assoc_init, hp0, hconv, hs]
  · simp [assoc_init, initial_state]
  · simp [assoc_init, initial_state, hsd, startMap]

theorem assoc_init_spec_witness :
    (assoc_init 8 ((2 : Nat) : Int) (initial_state 16)).hashpower = 2 ∧
      (assoc_init 8 ((2 : Nat) : Int) (initial_state 16)).map.buckets
        = List.replicate (2 ^ 2) [] ∧
      (assoc_init 8 ((2 : Nat) : Int) (initial_state 16)).map.buckets.length = 2 ^ 2 ∧
      (assoc_init 8 ((2 : Nat) : Int) (initial_state 16)).hash_power_level = 2 ∧
      (assoc_init 8 ((2 : Nat) : Int) (initial_state 16)).hash_bytes = 2 ^ 2 * 8 ∧
      (assoc_init 8 0 (initial_state 16)).hashpower = 16 ∧
      (assoc_init 8 0 (initial_state 16)).map.buckets.length = 2 ^ 16 :=
  assoc_init_spec 8 2 16 (initial_state 16) (by decide) (by decide) (by decide)

/-! ## The wake-up of the idle maintenance thread -/

/-- C7, where the claim fails: the idle controller (initial state at
`hashpower = 16`) is signalled, wakes up with the run flag set and runs
`assoc_expand`; afterwards `hashpower = 17`, but `expanding` is still false and
no aging array has been set up. -/
theorem wakeup_does_not_enter_expanding_counterexample :
    (maintenance_wakeup (fun _ => 0) true
        { initial_state 16 with cond_signalled := true }).hashpower = 17 ∧
      (maintenance_wakeup (fun _ => 0) true
        { initial_state 16 with cond_signalled := true }).expanding = false ∧
      (maintenance_wakeup (fun _ => 0) true
        { initial_state 16 with cond_signalled := true }).old_hashtable = [] := by
  refine ⟨by decide, by decide, by decide⟩

/-- C7, amended: when the idle maintenance controller (`expanding` false) is
signalled with the run flag set and runs `assoc_expand`, `hashpower` becomes
the old `hashpower + 1` (for an old value below `2^32 - 1`) and the map is
resized to `hashsize(hashpower)` slots by `resizeMap`; `expanding` stays false,
`expand_bucket`, `primary_hashtable` and `old_hashtable` are unchanged, and the
signal is consumed: the state stays `Idle`. -/
theorem wakeup_runs_assoc_expand (hash : List Nat → Nat) (alloc_ok : Bool) (s : AssocState)
    (hidle : s.expanding = false) (hsig : s.cond_signalled = true)
    (hrun : s.do_run_maintenance_thread = true) (hlt : s.hashpower < 4294967295) :
    (maintenance_wakeup hash alloc_ok s).hashpower = s.hashpower + 1 ∧
      (maintenance_wakeup hash alloc_ok s).map
        = resizeMap hash alloc_ok (hashsize (s.hashpower + 1)) s.map ∧
      (maintenance_wakeup hash alloc_ok s).expanding = false ∧
      (maintenance_wakeup hash alloc_ok s).expand_bucket = s.expand_bucket ∧
      (maintenance_wakeup hash alloc_ok s).primary_hashtable = s.primary_hashtable ∧
      (maintenance_wakeup hash alloc_ok s).old_hashtable = s.old_hashtable ∧
      (maintenance_wakeup hash alloc_ok s).cond_signalled = false := by
  have h1 : uint_succ s.hashpower = s.hashpower + 1 := uint_succ_eq _ hlt
  have _ := hsig
  simp [maintenance_wakeup, assoc_expand, hidle, hrun, h1]

theorem wakeup_runs_assoc_expand_witness :
    (maintenance_wakeup (fun k => k.length) true
        { initial_state 2 with cond_signalled := true }).hashpower = 2 + 1 ∧
      (maintenance_wakeup (fun k => k.length) true
        { initial_state 2 with cond_signalled := true }).map
        = resizeMap (fun k => k.length) true (hashsize (2 + 1)) (initial_state 2).map ∧
      (maintenance_wakeup (fun k => k.length) true
        { initial_state 2 with cond_signalled := true }).expanding = false ∧
      (maintenance_wakeup (fun k => k.length) true
        { initial_state 2 with cond_signalled := true }).expand_bucket = 0 ∧
      (maintenance_wakeup (fun k => k.length) true
        { initial_state 2 with cond_signalled := true }).primary_hashtable = [] ∧
      (maintenance_wakeup (fun k => k.length) true
        { initial_state 2 with cond_signalled := true }).old_hashtable = [] ∧
      (maintenance_wakeup (fun k => k.length) true
        { initial_state 2 with cond_signalled := true }).cond_signalled = false :=
  wakeup_runs_assoc_expand (fun k => k.length) true
    { initial_state 2 with cond_signalled := true } rfl rfl rfl (by decide)

/-! ## Bucket arrays -/

theorem table_getD_set (l : Table) (i j : Nat) (v : List item) :
    (l.set i v).getD j [] = if i = j ∧ i < l.length then v else l.getD j [] := by
  simp only [List.getD_eq_getElem?_getD, List.getElem?_set]
  by_cases hij : i = j
  · subst hij
    by_cases hi : i < l.length
    · simp [hi]
    · simp [hi, List.getElem?_eq_none (Nat.le_of_not_lt hi)]
  · simp [hij]

theorem table_flatten_push (l : Table) (i : Nat) (x : item) (hi : i < l.length) :
    (l.set i (x :: l.getD i [])).flatten.Perm (x :: l.flatten) := by
  induction l generalizing i with
  | nil => simp at hi
  | cons a t ih =>
    cases i with
    | zero => simp
    | succ k =>
      have hk : k < t.length := by simpa using hi
      have h := ih k hk
      simp only [List.set_cons_succ, List.flatten_cons, List.getD_cons_succ]
      exact (List.Perm.append_left a h).trans List.perm_middle

theorem table_flatten_clear (l : Table) (i : Nat) :
    l.flatten.Perm (l.getD i [] ++ (l.set i []).flatten) := by
  induction l generalizing i with
  | nil => simp
  | cons a t ih =>
    cases i with
    | zero => simp
    | succ k =>
      have h := ih k
      simp only [List.set_cons_succ, List.flatten_cons, List.getD_cons_succ]
      refine (List.Perm.append_left a h).trans ?_
      rw [← List.append_assoc, ← List.append_assoc]
      exact List.Perm.append_right _ List.perm_append_comm

theorem new_bucket_lt (hash : List Nat → Nat) (hp : Nat) (it : item) (h : hp ≤ 31) :
    new_bucket hash hp it < 2 ^ hp := by
  unfold new_bucket
  rw [and_hashmask _ _ h]
  exact Nat.mod_lt _ (Nat.pow_pos (by decide))

theorem relink_cons (hash : List Nat → Nat) (hp : Nat) (tbl : Table) (x : item)
    (xs : List item) :
    relink hash hp tbl (x :: xs) =
      relink hash hp
        (tbl.set (new_bucket hash hp x) (x :: tbl.getD (new_bucket hash hp x) [])) xs := rfl

theorem relink_length (hash : List Nat → Nat) (hp : Nat) (tbl : Table) (chain : List item) :
    (relink hash hp tbl chain).length = tbl.length := by
  induction chain generalizing tbl with
  | nil => rfl
  | cons x xs ih => rw [relink_cons, ih, List.length_set]

/-- After the relinking loop, bucket `j` of the primary table holds the items of
the chain whose new bucket is `j`, last relinked first, in front of what the
bucket held before. -/
theorem relink_getD (hash : List Nat → Nat) (hp : Nat) (tbl : Table) (chain : List item)
    (hb : ∀ it ∈ chain, new_bucket hash hp it < tbl.length) (j : Nat) :
    (relink hash hp tbl chain).getD j [] =
      (chain.filter (fun it => decide (new_bucket hash hp it = j))).reverse
        ++ tbl.getD j [] := by
  induction chain generalizing tbl with
  | nil => simp [relink]
  | cons x xs ih =>
    have hx : new_bucket hash hp x < tbl.length := hb x (List.mem_cons_self _ _)
    rw [relink_cons, ih]
    · rw [table_getD_set]
      by_cases hj : new_bucket hash hp x = j
      · simp [hj, List.filter_cons, hj ▸ hx]
      · simp [hj, List.filter_cons]
    · intro it hit
      rw [List.length_set]
      exact hb it (List.mem_cons_of_mem _ hit)

theorem relink_perm (hash : List Nat → Nat) (hp : Nat) (tbl : Table) (chain : List item)
    (hb : ∀ it ∈ chain, new_bucket hash hp it < tbl.length) :
    (relink hash hp tbl chain).flatten.Perm (chain ++ tbl.flatten) := by
  induction chain generalizing tbl with
  | nil => simp [relink]
  | cons x xs ih =>
    have hx : new_bucket hash hp x < tbl.length := hb x (List.mem_cons_self _ _)
    rw [relink_cons]
    refine (ih _ ?_).trans ?_
    · intro it hit
      rw [List.length_set]
      exact hb it (List.mem_cons_of_mem _ hit)
    · refine (List.Perm.append_left xs (table_flatten_push tbl _ x hx)).trans ?_
      exact List.perm_middle

/-! ## One step of the migration loop -/

theorem migration_iteration_locked (hash : List Nat → Nat) (SIZEOF_PTR : Nat) (s : AssocState)
    (hexp : s.expanding = true) :
    migration_iteration hash SIZEOF_PTR true s = migrate_bucket hash SIZEOF_PTR s := by
  simp [migration_iteration, hexp]

/-- C8: in a state with `expanding = true` that has the shape of the data model
(`hashpower ≤ 31`, a primary array of `hashsize(hashpower)` buckets, an
aging array of `hashsize(hashpower - 1)` buckets, `expand_bucket` inside the
aging array, which makes `hashpower ≥ 1`), one iteration of the migration loop with the bucket lock obtained
leaves `old_hashtable[expand_bucket]` empty; every primary bucket `j` then
holds the entries of the migrated chain with
`hash(key) & (2^hashpower - 1) = j` in front of its previous content, so every
entry of the chain is in its bucket of the primary table and every entry
already there stays in its bucket; the multiset of entries over both tables is
unchanged; and `expand_bucket` has advanced by exactly 1. -/
theorem migrate_one_bucket (hash : List Nat → Nat) (SIZEOF_PTR : Nat) (s : AssocState)
    (hexp : s.expanding = true) (h31 : s.hashpower ≤ 31)
    (hprim : s.primary_hashtable.length = hashsize s.hashpower)
    (hold : s.old_hashtable.length = hashsize (uint_pred s.hashpower))
    (heb : s.expand_bucket < s.old_hashtable.length) :
    (migration_iteration hash SIZEOF_PTR true s).old_hashtable[s.expand_bucket]? = some [] ∧
      (∀ j, (migration_iteration hash SIZEOF_PTR true s).primary_hashtable.getD j [] =
        ((s.old_hashtable.getD s.expand_bucket []).filter
            (fun it => decide ((hash it.key % UINT32_MOD) &&& (2 ^ s.hashpower - 1) = j))).reverse
          ++ s.primary_hashtable.getD j []) ∧
      (∀ it ∈ s.old_hashtable.getD s.expand_bucket [],
        it ∈ (migration_iteration hash SIZEOF_PTR true s).primary_hashtable.getD
          ((hash it.key % UINT32_MOD) &&& (2 ^ s.hashpower - 1)) []) ∧
      (∀ j, ∀ it ∈ s.primary_hashtable.getD j [],
        it ∈ (migration_iteration hash SIZEOF_PTR true s).primary_hashtable.getD j []) ∧
      (((migration_iteration hash SIZEOF_PTR true s).old_hashtable.flatten
          ++ (migration_iteration hash SIZEOF_PTR true s).primary_hashtable.flatten : List item)
        : Multiset item)
        = ((s.old_hashtable.flatten ++ s.primary_hashtable.flatten : List item)
          : Multiset item) ∧
      (migration_iteration hash SIZEOF_PTR true s).expand_bucket = s.expand_bucket + 1 := by
  rw [migration_iteration_locked hash SIZEOF_PTR s hexp]
  have hsz : hashsize s.hashpower = 2 ^ s.hashpower := hashsize_eq _ h31
  have hmask : hashmask s.hashpower = 2 ^ s.hashpower - 1 := hashmask_eq _ h31
  have hb : ∀ it ∈ s.old_hashtable.getD s.expand_bucket [],
      new_bucket hash s.hashpower it < s.primary_hashtable.length := by
    intro it _
    rw [hprim, hsz]
    exact new_bucket_lt hash _ it h31
  have hget : ∀ j, (migrate_bucket hash SIZEOF_PTR s).primary_hashtable.getD j [] =
      ((s.old_hashtable.getD s.expand_bucket []).filter
          (fun it => decide ((hash it.key % UINT32_MOD) &&& (2 ^ s.hashpower - 1) = j))).reverse
        ++ s.primary_hashtable.getD j [] := by
    intro j
    have h := relink_getD hash s.hashpower s.primary_hashtable _ hb j
    simp only [new_bucket, hmask] at h
    exact h
  refine ⟨?_, hget, ?_, ?_, ?_, ?_⟩
  · show (s.old_hashtable.set s.expand_bucket [])[s.expand_bucket]? = some []
    simp [List.getElem?_set, heb]
  · intro it hit
    rw [hget]
    apply List.mem_append_left
    rw [List.mem_reverse, List.mem_filter]
    exact ⟨hit, by simp⟩
  · intro j it hit
    rw [hget]
    exact List.mem_append_right _ hit
  · apply Quotient.sound
    show ((s.old_hashtable.set s.expand_bucket []).flatten
        ++ (relink hash s.hashpower s.primary_hashtable
              (s.old_hashtable.getD s.expand_bucket [])).flatten).Perm
      (s.old_hashtable.flatten ++ s.primary_hashtable.flatten)
    have hp1 := relink_perm hash s.hashpower s.primary_hashtable _ hb
    have hp2 := table_flatten_clear s.old_hashtable s.expand_bucket
    refine (List.Perm.append_left _ hp1).trans ?_
    refine List.Perm.trans ?_ (List.Perm.append_right _ hp2.symm)
    rw [← List.append_assoc]
    exact List.Perm.append_right _ List.perm_append_comm
  · show uint_succ s.expand_bucket = s.expand_bucket + 1
    have hlt := hashsize_lt (uint_pred s.hashpower)
    exact uint_succ_eq _ (by omega)

theorem migrate_one_bucket_witness :
    (migration_iteration List.sum 8 true migrating_example).old_hashtable[1]? = some [] ∧
      (migration_iteration List.sum 8 true migrating_example).primary_hashtable
        = [[{ key := [4], data := 40 }],
           [{ key := [1], data := 10 }, { key := [5], data := 50 }], [],
           [{ key := [3], data := 30 }]] ∧
      (((migration_iteration List.sum 8 true migrating_example).old_hashtable.flatten
          ++ (migration_iteration List.sum 8 true migrating_example).primary_hashtable.flatten
            : List item) : Multiset item)
        = ((migrating_example.old_hashtable.flatten
            ++ migrating_example.primary_hashtable.flatten : List item) : Multiset item) ∧
      (migration_iteration List.sum 8 true migrating_example).expand_bucket = 1 + 1 :=
  have h := migrate_one_bucket List.sum 8 migrating_example rfl (by decide) (by decide)
    (by decide) (by decide)
  ⟨h.1, by decide, h.2.2.2.2.1, h.2.2.2.2.2⟩

/-! ## The expansion cursor -/

theorem migrate_bucket_cursor (hash : List Nat → Nat) (SIZEOF_PTR : Nat) (s : AssocState)
    (hexp : s.expanding = true) (h : s.expand_bucket < hashsize (uint_pred s.hashpower)) :
    (migrate_bucket hash SIZEOF_PTR s).expand_bucket = s.expand_bucket + 1 ∧
      (migrate_bucket hash SIZEOF_PTR s).hashpower = s.hashpower ∧
      ((migrate_bucket hash SIZEOF_PTR s).expanding
        = if s.expand_bucket + 1 = hashsize (uint_pred s.hashpower) then false else true) := by
  have hlt := hashsize_lt (uint_pred s.hashpower)
  have h1 : uint_succ s.expand_bucket = s.expand_bucket + 1 := uint_succ_eq _ (by omega)
  simp [migrate_bucket, h1, hexp]

theorem CursorInv_step (hash : List Nat → Nat) (SIZEOF_PTR : Nat) (M : Nat) (s : AssocState) (ev : Event)
    (h : CursorInv s) : CursorInv (step hash SIZEOF_PTR M s ev) := by
  cases ev with
  | start_expand ok n =>
    show CursorInv (assoc_start_expand M ok n s)
    unfold assoc_start_expand
    split
    · exact h
    · exact h
  | find k hv => exact h
  | insert it hv => exact h
  | delete k hv => exact h
  | migrate ok =>
    show CursorInv (migration_iteration hash SIZEOF_PTR ok s)
    unfold migration_iteration
    by_cases he : s.expanding = true
    · cases ok
      · simpa [he] using h
      · simp only [he, if_true]
        obtain ⟨h1, h2, h3⟩ := migrate_bucket_cursor hash SIZEOF_PTR s he (h he)
        intro hx
        rw [h1, h2]
        rw [h3] at hx
        have hb := h he
        by_cases hc : s.expand_bucket + 1 = hashsize (uint_pred s.hashpower)
        · simp [hc] at hx
        · omega
    · rw [if_neg he]
      exact h
  | wakeup ok =>
    show CursorInv (maintenance_wakeup hash ok s)
    unfold maintenance_wakeup
    by_cases he : s.expanding = true
    · rw [if_pos he]
      exact h
    · rw [if_neg he]
      intro hx
      exfalso
      apply he
      by_cases hr : s.do_run_maintenance_thread = true
      · simpa [hr, assoc_expand] using hx
      · simpa [hr] using hx
  | stop => exact h

theorem CursorInv_run (hash : List Nat → Nat) (SIZEOF_PTR : Nat) (M : Nat) (events : List Event) (s : AssocState)
    (h : CursorInv s) : CursorInv (run hash SIZEOF_PTR M s events) := by
  induction events generalizing s with
  | nil => exact h
  | cons ev evs ih => exact ih _ (CursorInv_step hash SIZEOF_PTR M s ev h)

/-- The loop body on a constructed state with `expanding = true`, `hashpower = 1`
and `expand_bucket = 0`: the step advances `expand_bucket` to
`hashsize(hashpower - 1) = 1` and clears `expanding`; `expand_bucket` is left
at 1.  No execution of the module reaches such a state (see `idle_run`). -/
theorem last_bucket_step_example :
    last_bucket_example.expanding = true ∧
      last_bucket_example.expand_bucket + 1 = 2 ^ (last_bucket_example.hashpower - 1) ∧
      (migration_iteration List.sum 8 true last_bucket_example).expanding = false ∧
      (migration_iteration List.sum 8 true last_bucket_example).expand_bucket = 1 := by
  refine ⟨by decide, by decide, by decide, by decide⟩

theorem mod_pow_succ_cases (h k : Nat) :
    h % 2 ^ (k + 1) = h % 2 ^ k ∨ h % 2 ^ (k + 1) = h % 2 ^ k + 2 ^ k := by
  rw [pow_succ, Nat.mod_mul]
  rcases Nat.mod_two_eq_zero_or_one (h / 2 ^ k) with h0 | h1
  · left
    rw [h0]
    simp
  · right
    rw [h1]
    simp

/-- C10: for every hash value `h` and every `n` with `1 ≤ n ≤ 31`,
`(h & hashmask(n)) & hashmask(n-1) = h & hashmask(n-1)`, and `h & hashmask(n)`
is `h & hashmask(n-1)` or that plus `2^(n-1)`; consequently, in a state with
`hashpower = n` and a primary array of `hashsize(n)` buckets, every entry of the
chain `old_hashtable[expand_bucket]` whose old bucket
`hash(key) & hashmask(n-1)` is `expand_bucket` is, after the migration step, in
bucket `expand_bucket` or bucket `expand_bucket + 2^(n-1)` of the primary
table. -/
theorem low_bits_subset_under_doubling (hash : List Nat → Nat) (SIZEOF_PTR : Nat) (h n : Nat) (s : AssocState)
    (hn1 : 1 ≤ n) (hn31 : n ≤ 31) (hhp : s.hashpower = n)
    (hprim : s.primary_hashtable.length = hashsize n) :
    (h &&& hashmask n) &&& hashmask (n - 1) = h &&& hashmask (n - 1) ∧
      (h &&& hashmask n = h &&& hashmask (n - 1) ∨
        h &&& hashmask n = (h &&& hashmask (n - 1)) + 2 ^ (n - 1)) ∧
      (∀ it ∈ s.old_hashtable.getD s.expand_bucket [],
        (hash it.key % UINT32_MOD) &&& hashmask (n - 1) = s.expand_bucket →
          it ∈ (migrate_bucket hash SIZEOF_PTR s).primary_hashtable.getD s.expand_bucket [] ∨
            it ∈ (migrate_bucket hash SIZEOF_PTR s).primary_hashtable.getD
              (s.expand_bucket + 2 ^ (n - 1)) []) := by
  obtain ⟨k, rfl⟩ : ∃ k, n = k + 1 := ⟨n - 1, by omega⟩
  have hk : k ≤ 31 := by omega
  have hcases : ∀ x : Nat, x &&& hashmask (k + 1) = x &&& hashmask k ∨
      x &&& hashmask (k + 1) = (x &&& hashmask k) + 2 ^ k := by
    intro x
    rw [and_hashmask _ _ hn31, and_hashmask _ _ hk]
    exact mod_pow_succ_cases x k
  refine ⟨?_, ?_, ?_⟩
  · simp only [Nat.add_sub_cancel]
    rw [and_hashmask _ _ hn31, and_hashmask _ _ hk, and_hashmask _ _ hk]
    exact Nat.mod_mod_of_dvd h (pow_dvd_pow 2 (Nat.le_succ k))
  · simpa only [Nat.add_sub_cancel] using hcases h
  · intro it hit hold
    simp only [Nat.add_sub_cancel] at hold ⊢
    have hb : ∀ it ∈ s.old_hashtable.getD s.expand_bucket [],
        new_bucket hash s.hashpower it < s.primary_hashtable.length := by
      intro it _
      rw [hprim, hhp, hashsize_eq _ hn31]
      exact new_bucket_lt hash _ it hn31
    have hmem : it ∈ (migrate_bucket hash SIZEOF_PTR s).primary_hashtable.getD
        (new_bucket hash s.hashpower it) [] := by
      show it ∈ (relink hash s.hashpower s.primary_hashtable
        (s.old_hashtable.getD s.expand_bucket [])).getD (new_bucket hash s.hashpower it) []
      rw [relink_getD hash s.hashpower s.primary_hashtable _ hb]
      apply List.mem_append_left
      rw [List.mem_reverse, List.mem_filter]
      exact ⟨hit, by simp⟩
    have hnb : new_bucket hash s.hashpower it = s.expand_bucket ∨
        new_bucket hash s.hashpower it = s.expand_bucket + 2 ^ k := by
      have hc := hcases (hash it.key % UINT32_MOD)
      rw [hold] at hc
      rw [hhp]
      exact hc
    rcases hnb with e | e
    · left
      rw [← e]
      exact hmem
    · right
      rw [← e]
      exact hmem

theorem low_bits_subset_under_doubling_witness :
    (7 &&& hashmask 2) &&& hashmask (2 - 1) = 7 &&& hashmask (2 - 1) ∧
      (7 &&& hashmask 2 = 7 &&& hashmask (2 - 1) ∨
        7 &&& hashmask 2 = (7 &&& hashmask (2 - 1)) + 2 ^ (2 - 1)) ∧
      (∀ it ∈ migrating_example.old_hashtable.getD migrating_example.expand_bucket [],
        (List.sum it.key % UINT32_MOD) &&& hashmask (2 - 1) = migrating_example.expand_bucket →
          it ∈ (migrate_bucket List.sum 8 migrating_example).primary_hashtable.getD
              migrating_example.expand_bucket [] ∨
            it ∈ (migrate_bucket List.sum 8 migrating_example).primary_hashtable.getD
              (migrating_example.expand_bucket + 2 ^ (2 - 1)) []) :=
  low_bits_subset_under_doubling List.sum 8 7 2 migrating_example (by decide) (by decide)
    rfl (by decide)

/-! ## Lookup through the delegated map -/

theorem chain_find_cons (k : List Nat) (e : item) (c : List item) :
    chain_find k (e :: c) = if e.key = k then some e else chain_find k c := by
  unfold chain_find
  rw [List.find?_cons]
  by_cases h : e.key = k <;> simp [h]

theorem chain_find_eq_none (k : List Nat) (c : List item) :
    chain_find k c = none ↔ k ∉ c.map item.key := by
  unfold chain_find
  rw [List.find?_eq_none]
  simp only [decide_eq_true_eq, List.mem_map, not_exists, not_and]

theorem chain_find_some (k : List Nat) (c : List item) (e : item)
    (h : chain_find k c = some e) : e.key = k ∧ e ∈ c := by
  unfold chain_find at h
  exact ⟨by simpa using List.find?_some h, List.mem_of_find?_eq_some h⟩

theorem chain_find_remove (k k1 : List Nat) (c : List item)
    (hnd : (c.map item.key).Nodup) :
    chain_find k (chain_remove k1 c) = if k = k1 then none else chain_find k c := by
  induction c with
  | nil => simp [chain_find, chain_remove]
  | cons a t ih =>
    rw [List.map_cons, List.nodup_cons] at hnd
    obtain ⟨ha, ht⟩ := hnd
    have ih1 := ih ht
    unfold chain_remove at ih1 ⊢
    by_cases h1 : a.key = k1
    · have he : (a :: t).eraseP (fun e => decide (e.key = k1)) = t := by
        simp [List.eraseP_cons, h1]
      rw [he]
      by_cases hk : k = k1
      · rw [if_pos hk, chain_find_eq_none, hk, ← h1]
        exact ha
      · rw [if_neg hk, chain_find_cons, if_neg (fun hx => hk (hx.symm.trans h1))]
    · have he : (a :: t).eraseP (fun e => decide (e.key = k1))
          = a :: t.eraseP (fun e => decide (e.key = k1)) := by
        simp [List.eraseP_cons, h1]
      rw [he, chain_find_cons, chain_find_cons, ih1]
      by_cases hak : a.key = k
      · have hk : k ≠ k1 := fun hx => h1 (hak.trans hx)
        simp [hak, hk]
      · simp [hak]

theorem bucket_of_lt (hash : List Nat → Nat) (m : Map) (k : List Nat)
    (h : ∃ p, m.buckets.length = 2 ^ p) : bucket_of hash m k < m.buckets.length := by
  obtain ⟨p, hp⟩ := h
  unfold bucket_of
  rw [hp, Nat.and_pow_two_sub_one_eq_mod]
  exact Nat.mod_lt _ (Nat.pow_pos (by decide))

theorem bucket_of_set (hash : List Nat → Nat) (m : Map) (i : Nat) (v : List item)
    (k : List Nat) : bucket_of hash { buckets := m.buckets.set i v } k = bucket_of hash m k := by
  simp [bucket_of]

theorem getFromMap_insert (hash : List Nat → Nat) (m : Map) (e : item) (k : List Nat)
    (hwf : MapWF hash m) :
    getFromMap hash (insertIntoMap hash m e.key e) k
      = if e.key = k then some e else getFromMap hash m k := by
  have hlt := bucket_of_lt hash m e.key hwf.1
  unfold getFromMap insertIntoMap
  rw [bucket_of_set, table_getD_set]
  by_cases hk : e.key = k
  · rw [if_pos ⟨by rw [hk], hlt⟩, chain_find_cons, if_pos hk, if_pos hk]
  · rw [if_neg hk]
    by_cases hb : bucket_of hash m e.key = bucket_of hash m k
    · rw [if_pos ⟨hb, hlt⟩, chain_find_cons, if_neg hk, hb]
    · rw [if_neg (fun hx => hb hx.1)]

theorem getFromMap_remove (hash : List Nat → Nat) (m : Map) (k1 k : List Nat)
    (hwf : MapWF hash m) :
    getFromMap hash (removeFromMap hash m k1) k
      = if k = k1 then none else getFromMap hash m k := by
  have hlt := bucket_of_lt hash m k1 hwf.1
  unfold getFromMap removeFromMap
  rw [bucket_of_set, table_getD_set]
  by_cases hb : bucket_of hash m k1 = bucket_of hash m k
  · rw [if_pos ⟨hb, hlt⟩, chain_find_remove k k1 _ (hwf.2.2 _), hb]
  · rw [if_neg (fun hx => hb hx.1)]
    have hk : k ≠ k1 := fun hx => hb (by rw [hx])
    rw [if_neg hk]

theorem MapWF_startMap (hash : List Nat → Nat) (p : Nat) : MapWF hash (startMap (2 ^ p)) := by
  have hg : ∀ i, (startMap (2 ^ p)).buckets.getD i [] = [] := by
    intro i
    simp only [startMap, List.getD_eq_getElem?_getD, List.getElem?_replicate]
    split <;> rfl
  refine ⟨⟨p, startMap_length _⟩, ?_, ?_⟩
  · intro i e he
    rw [hg] at he
    simp at he
  · intro i
    rw [hg]
    simp

theorem MapWF_insert (hash : List Nat → Nat) (m : Map) (e : item) (hwf : MapWF hash m)
    (hnew : getFromMap hash m e.key = none) :
    MapWF hash (insertIntoMap hash m e.key e) := by
  obtain ⟨h1, h2, h3⟩ := hwf
  have hlt := bucket_of_lt hash m e.key h1
  unfold insertIntoMap
  refine ⟨?_, ?_, ?_⟩
  · obtain ⟨p, hp⟩ := h1
    exact ⟨p, by simpa using hp⟩
  · intro i x hx
    rw [bucket_of_set]
    rw [table_getD_set] at hx
    by_cases hi : bucket_of hash m e.key = i
    · rw [if_pos ⟨hi, hlt⟩, List.mem_cons] at hx
      rcases hx with hx | hx
      · rw [hx]
        exact hi
      · rw [← hi]
        exact h2 _ x hx
    · rw [if_neg (fun hc => hi hc.1)] at hx
      exact h2 i x hx
  · intro i
    rw [table_getD_set]
    by_cases hi : bucket_of hash m e.key = i
    · rw [if_pos ⟨hi, hlt⟩, List.map_cons, List.nodup_cons]
      refine ⟨?_, h3 _⟩
      unfold getFromMap at hnew
      exact (chain_find_eq_none _ _).mp hnew
    · rw [if_neg (fun hc => hi hc.1)]
      exact h3 i

theorem MapWF_remove (hash : List Nat → Nat) (m : Map) (k : List Nat) (hwf : MapWF hash m) :
    MapWF hash (removeFromMap hash m k) := by
  obtain ⟨h1, h2, h3⟩ := hwf
  have hlt := bucket_of_lt hash m k h1
  have hsub : (chain_remove k (m.buckets.getD (bucket_of hash m k) [])).Sublist
      (m.buckets.getD (bucket_of hash m k) []) := List.eraseP_sublist _
  unfold removeFromMap
  refine ⟨?_, ?_, ?_⟩
  · obtain ⟨p, hp⟩ := h1
    exact ⟨p, by simpa using hp⟩
  · intro i x hx
    rw [bucket_of_set]
    rw [table_getD_set] at hx
    by_cases hi : bucket_of hash m k = i
    · rw [if_pos ⟨hi, hlt⟩] at hx
      rw [← hi]
      exact h2 _ x (hsub.subset hx)
    · rw [if_neg (fun hc => hi hc.1)] at hx
      exact h2 i x hx
  · intro i
    rw [table_getD_set]
    by_cases hi : bucket_of hash m k = i
    · rw [if_pos ⟨hi, hlt⟩]
      exact (h3 _).sublist (hsub.map item.key)
    · rw [if_neg (fun hc => hi hc.1)]
      exact h3 i

theorem inserted_keys_append (a b : List Op) :
    inserted_keys (a ++ b) = inserted_keys a ++ inserted_keys b := by
  induction a with
  | nil => rfl
  | cons x t ih =>
    cases x with
    | insert it => simp [inserted_keys, ih]
    | delete k => simp [inserted_keys, ih]

theorem Live_mem_inserted (ops : List Op) (k : List Nat) (e : item) (h : Live ops k e) :
    k ∈ inserted_keys ops := by
  obtain ⟨pre, post, rfl, hk, _⟩ := h
  rw [inserted_keys_append]
  apply List.mem_append_right
  simp [inserted_keys, hk]

theorem Live_nil (k : List Nat) (e : item) : ¬ Live [] k e := by
  rintro ⟨pre, post, h, _, _⟩
  simp at h

theorem Live_snoc_insert (ops : List Op) (e1 : item) (k : List Nat) (e : item) :
    Live (ops ++ [Op.insert e1]) k e ↔ (e1 = e ∧ e.key = k) ∨ Live ops k e := by
  constructor
  · rintro ⟨pre, post, heq, hk, hnd⟩
    rcases List.eq_nil_or_concat post with hp | ⟨post1, x, hp⟩
    · subst hp
      have h := List.append_inj' heq rfl
      left
      refine ⟨?_, hk⟩
      simpa using h.2
    · rw [List.concat_eq_append] at hp
      subst hp
      have heq1 : ops ++ [Op.insert e1] = (pre ++ Op.insert e :: post1) ++ [x] := by
        rw [heq]
        simp
      have h := List.append_inj' heq1 rfl
      right
      refine ⟨pre, post1, h.1, hk, ?_⟩
      intro hm
      exact hnd (List.mem_append_left _ hm)
  · rintro (⟨h1, hk⟩ | ⟨pre, post, heq, hk, hnd⟩)
    · exact ⟨ops, [], by rw [h1], hk, by simp⟩
    · refine ⟨pre, post ++ [Op.insert e1], by rw [heq]; simp, hk, ?_⟩
      simpa using hnd

theorem Live_snoc_delete (ops : List Op) (k1 k : List Nat) (e : item) :
    Live (ops ++ [Op.delete k1]) k e ↔ k ≠ k1 ∧ Live ops k e := by
  constructor
  · rintro ⟨pre, post, heq, hk, hnd⟩
    rcases List.eq_nil_or_concat post with hp | ⟨post1, x, hp⟩
    · subst hp
      have h := List.append_inj' heq rfl
      simp at h
    · rw [List.concat_eq_append] at hp
      subst hp
      have heq1 : ops ++ [Op.delete k1] = (pre ++ Op.insert e :: post1) ++ [x] := by
        rw [heq]
        simp
      have h := List.append_inj' heq1 rfl
      have hx : x = Op.delete k1 := by simpa using h.2.symm
      subst hx
      refine ⟨?_, pre, post1, h.1, hk, ?_⟩
      · intro hkk
        apply hnd
        rw [hkk]
        simp
      · intro hm
        exact hnd (List.mem_append_left _ hm)
  · rintro ⟨hne, pre, post, heq, hk, hnd⟩
    refine ⟨pre, post ++ [Op.delete k1], by rw [heq]; simp, hk, ?_⟩
    simp only [List.mem_append, List.mem_singleton, Op.delete.injEq, not_or]
    exact ⟨hnd, hne⟩

theorem run_ops_snoc (hash : List Nat → Nat) (s : AssocState) (ops : List Op) (o : Op) :
    run_ops hash s (ops ++ [o]) = apply_op hash (run_ops hash s ops) o := by
  simp [run_ops, List.foldl_append]

/-- The delegated map after a sequence of insert and delete calls with pairwise
distinct inserted keys, started from a well-formed empty map: it is
well-formed, and it yields exactly the live entries. -/
theorem run_ops_lookup (hash : List Nat → Nat) (s : AssocState) (ops : List Op)
    (hwf : MapWF hash s.map) (hempty : ∀ k, getFromMap hash s.map k = none)
    (hd : (inserted_keys ops).Nodup) :
    MapWF hash (run_ops hash s ops).map ∧
      ∀ k e, getFromMap hash (run_ops hash s ops).map k = some e ↔ Live ops k e := by
  induction ops using List.reverseRecOn with
  | nil =>
    refine ⟨hwf, fun k e => ?_⟩
    show getFromMap hash s.map k = some e ↔ Live [] k e
    rw [hempty]
    simp [Live_nil]
  | append_singleton l o ih =>
    rw [inserted_keys_append] at hd
    obtain ⟨ihwf, ihl⟩ := ih (List.Nodup.of_append_left hd)
    rw [run_ops_snoc]
    cases o with
    | insert e1 =>
      have hnot : e1.key ∉ inserted_keys l := by
        intro hm
        have hdis := List.disjoint_of_nodup_append hd
        exact hdis hm (by simp [inserted_keys])
      have hnew : getFromMap hash (run_ops hash s l).map e1.key = none := by
        cases hg : getFromMap hash (run_ops hash s l).map e1.key with
        | none => rfl
        | some e2 => exact absurd (Live_mem_inserted l _ e2 ((ihl _ _).mp hg)) hnot
      refine ⟨MapWF_insert hash _ e1 ihwf hnew, fun k e => ?_⟩
      show getFromMap hash (insertIntoMap hash (run_ops hash s l).map e1.key e1) k = some e ↔ _
      rw [getFromMap_insert hash _ e1 k ihwf, Live_snoc_insert]
      by_cases hk : e1.key = k
      · rw [if_pos hk]
        constructor
        · intro h
          have h1 : e1 = e := Option.some.inj h
          exact Or.inl ⟨h1, h1 ▸ hk⟩
        · rintro (⟨h1, _⟩ | hl)
          · rw [h1]
          · exact absurd (Live_mem_inserted l k e hl) (hk ▸ hnot)
      · rw [if_neg hk, ihl]
        constructor
        · exact fun h => Or.inr h
        · rintro (⟨h1, h2⟩ | hl)
          · exact absurd (h1 ▸ h2) hk
          · exact hl
    | delete k1 =>
      refine ⟨MapWF_remove hash _ k1 ihwf, fun k e => ?_⟩
      show getFromMap hash (removeFromMap hash (run_ops hash s l).map k1) k = some e ↔ _
      rw [getFromMap_remove hash _ k1 k ihwf, Live_snoc_delete]
      by_cases hk : k = k1
      · rw [if_pos hk]
        simp [hk]
      · rw [if_neg hk, ihl]
        simp [hk]

/-- C4: start from a map freshly set up with `hashsize(p)` buckets (`p ≤ 31`)
and perform any sequence of `assoc_insert` and `assoc_delete` calls whose
inserted keys are pairwise distinct.  Then `assoc_find(key, nkey, hv)` returns
entry `e` exactly when `e` was inserted under that key and the key was not
deleted afterwards, and returns NULL exactly when there is no such entry; in
particular a key never inserted is not found, and an entry that is found has
exactly the bytes of the key asked for, so keys with different byte content are
never found for each other. -/
theorem lookup_correct (hash : List Nat → Nat) (p : Nat) (s : AssocState) (ops : List Op)
    (hp : p ≤ 31) (hmap : s.map = startMap (hashsize p))
    (hd : (inserted_keys ops).Nodup) :
    (∀ k nkey hv e, assoc_find hash k nkey hv (run_ops hash s ops) = some e ↔
        ∃ pre post, ops = pre ++ Op.insert e :: post ∧ e.key = k ∧ Op.delete k ∉ post) ∧
      (∀ k nkey hv, assoc_find hash k nkey hv (run_ops hash s ops) = none ↔
        ¬ ∃ e pre post, ops = pre ++ Op.insert e :: post ∧ e.key = k ∧ Op.delete k ∉ post) ∧
      (∀ k nkey hv, k ∉ inserted_keys ops →
        assoc_find hash k nkey hv (run_ops hash s ops) = none) ∧
      (∀ k nkey hv e, assoc_find hash k nkey hv (run_ops hash s ops) = some e →
        e.key = k) := by
  have hwf : MapWF hash s.map := by
    rw [hmap, hashsize_eq p hp]
    exact MapWF_startMap hash p
  have hempty : ∀ k, getFromMap hash s.map k = none := by
    intro k
    unfold getFromMap
    rw [chain_find_eq_none]
    have hg : s.map.buckets.getD (bucket_of hash s.map k) [] = [] := by
      rw [hmap]
      simp only [startMap, List.getD_eq_getElem?_getD, List.getElem?_replicate]
      split <;> rfl
    rw [hg]
    simp
  obtain ⟨_, hl⟩ := run_ops_lookup hash s ops hwf hempty hd
  have hiff : ∀ k nkey hv e, assoc_find hash k nkey hv (run_ops hash s ops) = some e ↔
      ∃ pre post, ops = pre ++ Op.insert e :: post ∧ e.key = k ∧ Op.delete k ∉ post :=
    fun k _ _ e => hl k e
  have hnone : ∀ k nkey hv, assoc_find hash k nkey hv (run_ops hash s ops) = none ↔
      ¬ ∃ e pre post, ops = pre ++ Op.insert e :: post ∧ e.key = k ∧ Op.delete k ∉ post := by
    intro k nkey hv
    constructor
    · rintro h ⟨e, he⟩
      rw [(hiff k nkey hv e).mpr he] at h
      exact Option.noConfusion h
    · intro h
      cases hg : assoc_find hash k nkey hv (run_ops hash s ops) with
      | none => rfl
      | some e => exact absurd ⟨e, (hiff k nkey hv e).mp hg⟩ h
  refine ⟨hiff, hnone, ?_, ?_⟩
  · intro k nkey hv hk
    rw [hnone]
    rintro ⟨e, he⟩
    exact hk (Live_mem_inserted ops k e he)
  · intro k nkey hv e h
    obtain ⟨_, _, _, hk, _⟩ := (hiff k nkey hv e).mp h
    exact hk

theorem lookup_correct_witness :
    assoc_find List.sum [2] 1 2
        (run_ops List.sum (assoc_init 8 2 (initial_state 16))
          [Op.insert { key := [1], data := 10 }, Op.insert { key := [2], data := 20 },
            Op.delete [1]])
        = some { key := [2], data := 20 } ∧
      assoc_find List.sum [1] 1 1
        (run_ops List.sum (assoc_init 8 2 (initial_state 16))
          [Op.insert { key := [1], data := 10 }, Op.insert { key := [2], data := 20 },
            Op.delete [1]])
        = none ∧
      assoc_find List.sum [9] 1 9
        (run_ops List.sum (assoc_init 8 2 (initial_state 16))
          [Op.insert { key := [1], data := 10 }, Op.insert { key := [2], data := 20 },
            Op.delete [1]])
        = none :=
  have h := lookup_correct List.sum 2 (assoc_init 8 2 (initial_state 16))
    [Op.insert { key := [1], data := 10 }, Op.insert { key := [2], data := 20 },
      Op.delete [1]] (by decide) rfl (by decide)
  ⟨(h.1 [2] 1 2 { key := [2], data := 20 }).mpr
      ⟨[Op.insert { key := [1], data := 10 }], [Op.delete [1]], rfl, rfl, by decide⟩,
    by decide, h.2.2.1 [9] 1 9 (by decide)⟩

end Assoc
